import Mathlib

/-!
Verification of the TranslationFlow project/phase workflow model.

Shallow embedding of the pure logic of the repository:
  - src/lib/types.ts           (ProjectPhase, PhaseStatus, Project, UserRole, ...)
  - src/lib/services/projectService.ts (createDefaultPhases, createProject,
      updateProject, updateProjectPhaseStatus, assignUserToPhase)
  - src/lib/cache.ts           (createCache: get/set/remove/clear/has)
  - src/lib/errors/errorTypes.ts (mapFirebaseErrorCode, handleError)
  - src/lib/firebase/batchOperations.ts (executeBatch chunking)
  - src/lib/services/userService.ts (getUsersForPhaseAssignment role map,
      promoteToAdmin)

JavaScript objects / Maps are embedded as association lists in insertion
order: setting a key replaces the value in place when the key is present and
appends otherwise; deleting a key removes it.  Asynchronous Firestore round
trips are elided: each store operation is embedded as the pure function from
the current (already converted) document value to the object the operation
returns to its caller, which is what the claims are about.  Timestamp fields
(createdAt/updatedAt) are not modelled: no claim mentions them.
-/

namespace Transflow

/-- Association-list lookup: the value stored at a key of a JS object. -/
def lookupKey {κ α : Type} [DecidableEq κ] : List (κ × α) → κ → Option α
  | [], _ => none
  | (k, v) :: rest, key => if k = key then some v else lookupKey rest key

/-- JS assignment `obj[key] = val` on a JS object: replace in place or append. -/
def setKey {κ α : Type} [DecidableEq κ] : List (κ × α) → κ → α → List (κ × α)
  | [], key, val => [(key, val)]
  | (k, v) :: rest, key, val =>
      if k = key then (key, val) :: rest else (k, v) :: setKey rest key val

/-- JS deletion `delete obj[key]` on a JS object (keys of a JS object are unique, so
removing every occurrence agrees with removing the one occurrence). -/
def eraseKey {κ α : Type} [DecidableEq κ] (l : List (κ × α)) (key : κ) :
    List (κ × α) :=
  l.filter (fun e => decide (e.1 ≠ key))

theorem lookupKey_setKey_self {κ α : Type} [DecidableEq κ]
    (l : List (κ × α)) (key : κ) (val : α) :
    lookupKey (setKey l key val) key = some val := by
  induction l with
  | nil => simp [setKey, lookupKey]
  | cons e rest ih =>
      by_cases h : e.1 = key
      · simp [setKey, lookupKey, h]
      · simp [setKey, lookupKey, h, ih]

theorem lookupKey_setKey_ne {κ α : Type} [DecidableEq κ]
    (l : List (κ × α)) (key q : κ) (val : α) (hne : q ≠ key) :
    lookupKey (setKey l key val) q = lookupKey l q := by
  induction l with
  | nil => simp [setKey, lookupKey, Ne.symm hne]
  | cons e rest ih =>
      by_cases h : e.1 = key
      · simp [setKey, lookupKey, h, Ne.symm hne]
      · simp only [setKey, lookupKey, if_neg h]
        by_cases hq : e.1 = q
        · simp [hq]
        · simp [hq, ih]

theorem lookupKey_eraseKey_self {κ α : Type} [DecidableEq κ]
    (l : List (κ × α)) (key : κ) :
    lookupKey (eraseKey l key) key = none := by
  induction l with
  | nil => simp [eraseKey, lookupKey]
  | cons e rest ih =>
      by_cases h : e.1 = key
      · simpa [eraseKey, List.filter, h] using ih
      · simpa [eraseKey, List.filter, h, lookupKey] using ih

/-- The four workflow phases (src/lib/types.ts, enum ProjectPhase). -/
inductive ProjectPhase : Type where
  | subtitle_translation
  | translation_proofreading
  | audio_production
  | audio_review
  deriving DecidableEq, Repr

/-- Per-phase status (src/lib/types.ts, enum PhaseStatus). -/
inductive PhaseStatus : Type where
  | not_started
  | in_progress
  | completed
  deriving DecidableEq, Repr

/-- User roles (src/lib/types.ts, enum UserRole). -/
inductive UserRole : Type where
  | admin
  | translator
  | reviewer
  | audio_producer
  | user
  deriving DecidableEq, Repr

/-- Modelled from the spec: `PHASE_SEQUENCE` lives in src/lib/constants.ts,
which is not among the provided sources (only its importers are).  Spec §4.1:
"ordered list of the four phase identifiers — fixed, never reordered", in the
workflow order subtitle translation → proofreading → audio production →
audio review (spec §1), with the first phase being subtitle translation. -/
def PHASE_SEQUENCE : List ProjectPhase :=
  [ProjectPhase.subtitle_translation,
   ProjectPhase.translation_proofreading,
   ProjectPhase.audio_production,
   ProjectPhase.audio_review]

/-- The `ProjectPhases` runtime value: the `phases` JS object of a project. -/
abbrev ProjectPhases : Type := List (ProjectPhase × PhaseStatus)

/-- The `PhaseAssignments` runtime value: the `phaseAssignments` JS object. -/
abbrev PhaseAssignments : Type := List (ProjectPhase × String)

/-- Project object as held by the client (src/lib/types.ts, Project),
restricted to the fields the verified operations read or write. -/
structure Project : Type where
  id : String
  name : String
  description : String
  sourceLanguage : String
  targetLanguages : List String
  createdBy : String
  owner : String
  assignees : List String
  phaseAssignments : PhaseAssignments
  phases : ProjectPhases
  currentPhase : ProjectPhase

/-- Form data passed to createProject (src/lib/types.ts, ProjectFormData).
`targetLanguage` is the legacy singular field the createProject code reads
(`projectData.targetLanguage ? [projectData.targetLanguage] : []`); it is
optional and absent in the declared form type. -/
structure ProjectFormData : Type where
  name : String
  description : String
  sourceLanguage : String
  targetLanguages : List String
  targetLanguage : Option String := none

/-- src/lib/services/projectService.ts, createDefaultPhases:
`PHASE_SEQUENCE.reduce((phases, phase) => { phases[phase] = NOT_STARTED; ... }, {})`. -/
def createDefaultPhases : ProjectPhases :=
  PHASE_SEQUENCE.foldl (fun phases phase => setKey phases phase PhaseStatus.not_started) []

/-- src/lib/services/projectService.ts, createProject: the project object
returned to the caller.  `docId` stands for the id Firestore mints for the
new document; the JS truthiness test on `projectData.targetLanguage` makes an
empty string behave like an absent field. -/
def createProject (projectData : ProjectFormData) (userId : String)
    (docId : String) : Project :=
  { id := docId
    name := projectData.name
    description := projectData.description
    sourceLanguage := projectData.sourceLanguage
    targetLanguages :=
      match projectData.targetLanguage with
      | some t => if t = "" then [] else [t]
      | none => []
    createdBy := userId
    owner := userId
    assignees := [userId]
    phaseAssignments := []
    currentPhase := ProjectPhase.subtitle_translation
    phases := createDefaultPhases }

/-- src/lib/services/projectService.ts, updateProjectPhaseStatus: the project
object returned to the caller.  The phases object is copied and the one phase
overwritten; `currentPhase` is overwritten exactly when the new status is
IN_PROGRESS. -/
def updateProjectPhaseStatus (currentProject : Project) (phase : ProjectPhase)
    (status : PhaseStatus) : Project :=
  { currentProject with
    phases := setKey currentProject.phases phase status
    currentPhase :=
      if status = PhaseStatus.in_progress then phase
      else currentProject.currentPhase }

/-- src/lib/services/projectService.ts, assignUserToPhase: the project object
returned to the caller.  `userId` is `string | null`; the JS truthiness test
`if (userId)` treats the empty string like null, so both delete the phase
entry from the copied phaseAssignments object. -/
def assignUserToPhase (currentProject : Project) (phase : ProjectPhase)
    (userId : Option String) : Project :=
  { currentProject with
    phaseAssignments :=
      match userId with
      | some u =>
          if u = "" then eraseKey currentProject.phaseAssignments phase
          else setKey currentProject.phaseAssignments phase u
      | none => eraseKey currentProject.phaseAssignments phase }

/-- Update payload for updateProject (src/lib/types.ts, ProjectUpdate).
Plain optional fields, plus the dotted keys `phases.<phase>` and
`phaseAssignments.<phase>` (here collected into the two lists, in object key
order).  The updatedAt timestamp is not modelled. -/
structure ProjectUpdate : Type where
  name : Option String := none
  description : Option String := none
  sourceLanguage : Option String := none
  targetLanguages : Option (List String) := none
  currentPhase : Option ProjectPhase := none
  owner : Option String := none
  assignees : Option (List String) := none
  phaseAssignments : Option PhaseAssignments := none
  phasesDot : List (ProjectPhase × PhaseStatus) := []
  phaseAssignmentsDot : List (ProjectPhase × String) := []

/-- src/lib/services/projectService.ts, updateProject: the project object
returned to the caller.  Present plain fields override the current data; the
forEach over Object.entries then applies each `phases.<phase>` entry to the
phases object and each `phaseAssignments.<phase>` entry to the
phaseAssignments object. -/
def updateProject (currentData : Project) (projectData : ProjectUpdate) :
    Project :=
  { currentData with
    name := projectData.name.getD currentData.name
    description := projectData.description.getD currentData.description
    sourceLanguage := projectData.sourceLanguage.getD currentData.sourceLanguage
    targetLanguages := projectData.targetLanguages.getD currentData.targetLanguages
    currentPhase := projectData.currentPhase.getD currentData.currentPhase
    owner := projectData.owner.getD currentData.owner
    assignees := projectData.assignees.getD currentData.assignees
    phases :=
      projectData.phasesDot.foldl (fun m e => setKey m e.1 e.2)
        currentData.phases
    phaseAssignments :=
      projectData.phaseAssignmentsDot.foldl (fun m e => setKey m e.1 e.2)
        (projectData.phaseAssignments.getD currentData.phaseAssignments) }

/-- The invariant of spec §3: the phases object has an entry for every
defined phase value. -/
def phasesComplete (phases : ProjectPhases) : Prop :=
  ∀ ph : ProjectPhase, (lookupKey phases ph).isSome = true

/-- The number of entries of a phases object whose status is COMPLETED. -/
def completedCount (phases : ProjectPhases) : Nat :=
  (phases.filter (fun e => decide (e.2 = PhaseStatus.completed))).length

/-- src/app/projects/[id]/page.tsx, inline overall-progress computation:
`totalPhases > 0 ? Math.round((completedPhases / totalPhases) * 100) : 0`.
`Math.round((c / t) * 100)` is embedded as the exact natural number
`(200 * c + t) / (2 * t)`, the floor of `100 * c / t + 1 / 2`; a phases
object has at most four (distinct ProjectPhase) keys and for every
`c ≤ t ≤ 4` the double-precision evaluation of `(c / t) * 100` rounds to the
same integer as the exact value, so the embedding agrees with the source on
every reachable phases object. -/
def computeProgress (phases : ProjectPhases) : Nat :=
  let totalPhases := phases.length
  let completedPhases := completedCount phases
  if totalPhases > 0 then (200 * completedPhases + totalPhases) / (2 * totalPhases)
  else 0

/-- src/lib/cache.ts, CacheEntry: stored data plus the Date.now() timestamp
recorded when it was set.  Times are integers (milliseconds). -/
structure CacheEntry (T : Type) : Type where
  data : T
  timestamp : Int

/-- The backing `Map<string, CacheEntry<T>>` of a cache instance. -/
abbrev CacheMap (T : Type) : Type := List (String × CacheEntry T)

/-- src/lib/cache.ts, createCache(...).get: result value together with the
map after the call.  `now` stands for the Date.now() read inside the call;
an entry older than `ttlMs` is deleted and nothing is returned. -/
def cacheGet {T : Type} (ttlMs : Int) (cache : CacheMap T) (key : String)
    (now : Int) : Option T × CacheMap T :=
  match lookupKey cache key with
  | none => (none, cache)
  | some entry =>
      if now - entry.timestamp > ttlMs then (none, eraseKey cache key)
      else (some entry.data, cache)

/-- src/lib/cache.ts, createCache(...).set: stores the data under the key
with the current timestamp, overwriting any prior entry. -/
def cacheSet {T : Type} (cache : CacheMap T) (key : String) (data : T)
    (now : Int) : CacheMap T :=
  setKey cache key { data := data, timestamp := now }

/-- src/lib/cache.ts, createCache(...).has: whether the key is present and
not expired, deleting it when expired. -/
def cacheHas {T : Type} (ttlMs : Int) (cache : CacheMap T) (key : String)
    (now : Int) : Bool × CacheMap T :=
  match lookupKey cache key with
  | none => (false, cache)
  | some entry =>
      if now - entry.timestamp > ttlMs then (false, eraseKey cache key)
      else (true, cache)

/-- Values thrown at the error normalizer (src/lib/errors/errorTypes.ts):
a provider FirebaseError (instanceof FirebaseError, carrying a code and a
message), a generic JS Error (instanceof Error, carrying a message), or any
other value. -/
inductive ThrownValue : Type where
  | firebaseError (code : String) (message : String)
  | jsError (message : String)
  | otherValue
  deriving DecidableEq, Repr

/-- src/lib/errors/errorTypes.ts, enum ErrorCode. -/
inductive ErrorCode : Type where
  | authentication
  | permission_denied
  | not_found
  | validation
  | network
  | server
  | unknown
  deriving DecidableEq, Repr

/-- src/lib/errors/errorTypes.ts, interface AppError. -/
structure AppError : Type where
  code : ErrorCode
  message : String
  originalError : ThrownValue

/-- src/lib/errors/errorTypes.ts, mapFirebaseErrorCode. -/
def mapFirebaseErrorCode (firebaseCode : String) : ErrorCode :=
  if firebaseCode.startsWith "auth/" then ErrorCode.authentication
  else if firebaseCode = "permission-denied" then ErrorCode.permission_denied
  else if firebaseCode = "not-found" then ErrorCode.not_found
  else ErrorCode.unknown

/-- src/lib/errors/errorTypes.ts, handleError. -/
def handleError (error : ThrownValue) : AppError :=
  match error with
  | ThrownValue.firebaseError code message =>
      { code := mapFirebaseErrorCode code
        message := message
        originalError := error }
  | ThrownValue.jsError message =>
      { code := ErrorCode.unknown
        message := message
        originalError := error }
  | ThrownValue.otherValue =>
      { code := ErrorCode.unknown
        message := "An unexpected error occurred"
        originalError := error }

/-- Standard property names inherited from Object.prototype.  Bracket
lookup on a plain JS object literal consults the prototype chain, so these
keys yield a (truthy) inherited function even though the literal has no own
entry for them. -/
def OBJECT_PROTOTYPE_KEYS : List String :=
  ["constructor", "hasOwnProperty", "isPrototypeOf", "propertyIsEnumerable",
   "toLocaleString", "toString", "valueOf", "__proto__", "__defineGetter__",
   "__defineSetter__", "__lookupGetter__", "__lookupSetter__"]

/-- Result of the JS lookup `roleMap[phase]` on the record literal in
getUsersForPhaseAssignment: an own role-list entry, a function inherited
from Object.prototype, or undefined. -/
inductive RoleMapLookup : Type where
  | ownEntry (roles : List UserRole)
  | inheritedFunction (name : String)
  | undefinedValue
  deriving DecidableEq, Repr

/-- src/lib/services/userService.ts, getUsersForPhaseAssignment: the
`roleMap` record literal under JS bracket lookup, prototype chain
included. -/
def phaseRoleMap (phase : String) : RoleMapLookup :=
  if phase = "subtitle_translation" then
    RoleMapLookup.ownEntry [UserRole.translator]
  else if phase = "translation_proofreading" then
    RoleMapLookup.ownEntry [UserRole.reviewer]
  else if phase = "audio_production" then
    RoleMapLookup.ownEntry [UserRole.audio_producer]
  else if phase = "audio_review" then
    RoleMapLookup.ownEntry [UserRole.reviewer]
  else if phase ∈ OBJECT_PROTOTYPE_KEYS then
    RoleMapLookup.inheritedFunction phase
  else RoleMapLookup.undefinedValue

/-- The value the local `requiredRoles` takes in getUsersForPhaseAssignment:
a role list, or the function inherited from Object.prototype. -/
inductive RequiredRoles : Type where
  | roleList (roles : List UserRole)
  | inheritedFunction (name : String)
  deriving DecidableEq, Repr

/-- src/lib/services/userService.ts, getUsersForPhaseAssignment:
`const requiredRoles = roleMap[phase] || [UserRole.ADMIN]`.  undefined is
falsy; an own role list and an inherited function are both truthy, so the
admin fallback fires only when the lookup is undefined. -/
def requiredRolesForPhase (phase : String) : RequiredRoles :=
  match phaseRoleMap phase with
  | RoleMapLookup.ownEntry roles => RequiredRoles.roleList roles
  | RoleMapLookup.inheritedFunction name => RequiredRoles.inheritedFunction name
  | RoleMapLookup.undefinedValue => RequiredRoles.roleList [UserRole.admin]

/-- src/lib/firebase/batchOperations.ts, BatchOperation type.  A document
reference is embedded as its path and the attached document data as an
opaque payload. -/
inductive BatchOpType : Type where
  | delete
  | set
  | update
  deriving DecidableEq, Repr

/-- src/lib/firebase/batchOperations.ts, BatchOperation. -/
structure BatchOperation : Type where
  type : BatchOpType
  ref : String
  data : Option String := none
  deriving DecidableEq, Repr

/-- src/lib/firebase/batchOperations.ts, MAX_BATCH_SIZE: the Firestore
batched-write limit. -/
def MAX_BATCH_SIZE : Nat := 500

/-- src/lib/firebase/batchOperations.ts, executeBatch chunking loop:
`for (let i = 0; i < operations.length; i += MAX_BATCH_SIZE)
   chunks.push(operations.slice(i, i + MAX_BATCH_SIZE))`.
`operations.slice(i, i + MAX_BATCH_SIZE)` is `(operations.drop i).take
MAX_BATCH_SIZE`. -/
def chunkFrom (operations : List BatchOperation) (i : Nat) :
    List (List BatchOperation) :=
  if i < operations.length then
    (operations.drop i).take MAX_BATCH_SIZE :: chunkFrom operations (i + MAX_BATCH_SIZE)
  else []
termination_by operations.length - i
decreasing_by simp only [MAX_BATCH_SIZE]; omega

/-- src/lib/firebase/batchOperations.ts, executeBatch: the list of operation
chunks, in order, one per `writeBatch(...).commit()` call; an empty
operation list returns before building any chunk. -/
def executeBatchCommits (operations : List BatchOperation) :
    List (List BatchOperation) :=
  if operations.length = 0 then [] else chunkFrom operations 0

/-- User document as stored in the `users` collection, restricted to the
fields promoteToAdmin reads or writes (src/lib/services/userService.ts);
`roles` is optional because existing documents may lack the field. -/
structure UserDoc : Type where
  roles : Option (List UserRole)
  isValidated : Bool
  deriving DecidableEq, Repr

/-- src/lib/services/userService.ts, promoteToAdmin: the document after the
call together with whether a roles write was issued.
`userData.roles || [UserRole.USER]` defaults only a missing field (an empty
stored array is truthy). -/
def promoteToAdmin (userDoc : UserDoc) : UserDoc × Bool :=
  let currentRoles := userDoc.roles.getD [UserRole.user]
  if UserRole.admin ∈ currentRoles then (userDoc, false)
  else
    ({ userDoc with
        roles := some (currentRoles ++ [UserRole.admin])
        isValidated := true }, true)

/-- src/lib/services/userService.ts, convertToUserProfile applied to a user
document, restricted to the roles field:
`Array.isArray(data.roles) ? data.roles : [UserRole.USER]`. -/
def profileRoles (userDoc : UserDoc) : List UserRole :=
  userDoc.roles.getD [UserRole.user]

end Transflow

namespace Transflow

/-- Claim C1: for every project form data and user id, createProject returns
a project whose phases map assigns not_started to each of the four defined
phases and nothing else (its key set is exactly PHASE_SEQUENCE), and whose
currentPhase is subtitle_translation, the first phase of the sequence. -/
theorem createProject_default_phases (projectData : ProjectFormData)
    (userId docId : String) :
    (∀ ph : ProjectPhase,
        lookupKey (createProject projectData userId docId).phases ph =
          some PhaseStatus.not_started) ∧
    (createProject projectData userId docId).phases.map Prod.fst = PHASE_SEQUENCE ∧
    (createProject projectData userId docId).currentPhase =
      ProjectPhase.subtitle_translation ∧
    PHASE_SEQUENCE.head? = some (createProject projectData userId docId).currentPhase := by
  refine ⟨fun ph => ?_, by rfl, by rfl, by rfl⟩
  cases ph <;> rfl

/-- Claim C2: updateProjectPhaseStatus sets phases[P] to S, leaves every
other phase's status unchanged, and sets currentPhase to P exactly when S is
in_progress (otherwise currentPhase is unchanged). -/
theorem updateProjectPhaseStatus_frame (currentProject : Project)
    (phase : ProjectPhase) (status : PhaseStatus) (q : ProjectPhase) :
    lookupKey (updateProjectPhaseStatus currentProject phase status).phases q =
      (if q = phase then some status else lookupKey currentProject.phases q) ∧
    (updateProjectPhaseStatus currentProject phase status).currentPhase =
      (if status = PhaseStatus.in_progress then phase
       else currentProject.currentPhase) := by
  constructor
  · by_cases hq : q = phase
    · simpa [updateProjectPhaseStatus, hq] using
        lookupKey_setKey_self currentProject.phases phase status
    · simpa [updateProjectPhaseStatus, hq] using
        lookupKey_setKey_ne currentProject.phases phase q status hq
  · rfl

/-- Claim C6: assigning any user id to phase P and then unassigning (passing
null) leaves no entry for P in the returned project's phase-assignment map. -/
theorem assignUserToPhase_unassign (currentProject : Project)
    (phase : ProjectPhase) (userId : String) :
    lookupKey
      (assignUserToPhase
        (assignUserToPhase currentProject phase (some userId)) phase
        none).phaseAssignments phase = none := by
  by_cases h : userId = ""
  · simpa [assignUserToPhase, h] using
      lookupKey_eraseKey_self
        (eraseKey currentProject.phaseAssignments phase) phase
  · simpa [assignUserToPhase, h] using
      lookupKey_eraseKey_self
        (setKey currentProject.phaseAssignments phase userId) phase

theorem phasesComplete_setKey (m : ProjectPhases) (k : ProjectPhase)
    (v : PhaseStatus) (h : phasesComplete m) :
    phasesComplete (setKey m k v) := by
  intro ph
  by_cases hk : ph = k
  · rw [hk, lookupKey_setKey_self]
    rfl
  · rw [lookupKey_setKey_ne m k ph v hk]
    exact h ph

theorem phasesComplete_foldl_setKey (updates : List (ProjectPhase × PhaseStatus)) :
    ∀ m : ProjectPhases, phasesComplete m →
      phasesComplete (updates.foldl (fun m e => setKey m e.1 e.2) m) := by
  induction updates with
  | nil => intro m h; exact h
  | cons e rest ih =>
      intro m h
      exact ih (setKey m e.1 e.2) (phasesComplete_setKey m e.1 e.2 h)

/-- Claim C3: every project object returned by the store operations
(creation, update, phase-status update, phase assignment) has a phases map
with an entry for every one of the four defined phases; no operation removes
a phase entry. -/
theorem store_operations_phases_complete :
    (∀ (projectData : ProjectFormData) (userId docId : String),
        phasesComplete (createProject projectData userId docId).phases) ∧
    (∀ (p : Project) (upd : ProjectUpdate),
        phasesComplete p.phases → phasesComplete (updateProject p upd).phases) ∧
    (∀ (p : Project) (phase : ProjectPhase) (status : PhaseStatus),
        phasesComplete p.phases →
        phasesComplete (updateProjectPhaseStatus p phase status).phases) ∧
    (∀ (p : Project) (phase : ProjectPhase) (userId : Option String),
        phasesComplete p.phases →
        phasesComplete (assignUserToPhase p phase userId).phases) := by
  refine ⟨fun projectData userId docId ph => ?_, fun p upd h => ?_,
          fun p phase status h => ?_, fun p phase userId h => ?_⟩
  · cases ph <;> rfl
  · exact phasesComplete_foldl_setKey upd.phasesDot p.phases h
  · exact phasesComplete_setKey p.phases phase status h
  · cases userId with
    | none => exact h
    | some u =>
        simp only [assignUserToPhase]
        exact h

/-- Concrete instance of C3: after creating a project and then applying a
phase-status change, an assignment and a dotted phase write, each of the
four phases still has an entry. -/
theorem store_operations_phases_complete_witness :
    (lookupKey
      (updateProject
        (assignUserToPhase
          (updateProjectPhaseStatus
            (createProject ⟨"n", "d", "en", ["es"], none⟩ "u1" "p1")
            ProjectPhase.audio_production PhaseStatus.in_progress)
          ProjectPhase.audio_review (some "u2"))
        { phasesDot := [(ProjectPhase.audio_review, PhaseStatus.completed)] }).phases
      ProjectPhase.subtitle_translation).isSome = true ∧
    (lookupKey
      (updateProject
        (assignUserToPhase
          (updateProjectPhaseStatus
            (createProject ⟨"n", "d", "en", ["es"], none⟩ "u1" "p1")
            ProjectPhase.audio_production PhaseStatus.in_progress)
          ProjectPhase.audio_review (some "u2"))
        { phasesDot := [(ProjectPhase.audio_review, PhaseStatus.completed)] }).phases
      ProjectPhase.audio_review).isSome = true :=
  ⟨store_operations_phases_complete.2.1 _ _
    (store_operations_phases_complete.2.2.2 _ _ _
      (store_operations_phases_complete.2.2.1 _ _ _
        (store_operations_phases_complete.1 _ _ _)))
    ProjectPhase.subtitle_translation,
   store_operations_phases_complete.2.1 _ _
    (store_operations_phases_complete.2.2.2 _ _ _
      (store_operations_phases_complete.2.2.1 _ _ _
        (store_operations_phases_complete.1 _ _ _)))
    ProjectPhase.audio_review⟩

/-- Claim C4: the computed progress is the completed-phase count over the
total phase count, times 100, rounded to the nearest integer; an empty
phases map gives 0 (no division by zero) and an all-completed map gives
100. -/
theorem computeProgress_correct :
    computeProgress [] = 0 ∧
    (∀ phases : ProjectPhases, phases ≠ [] →
        (computeProgress phases : ℤ) =
          round ((100 * (completedCount phases : ℚ)) / (phases.length : ℚ))) ∧
    (∀ phases : ProjectPhases, phases ≠ [] →
        (∀ e ∈ phases, e.2 = PhaseStatus.completed) →
        computeProgress phases = 100) := by
  have key : ∀ phases : ProjectPhases, phases ≠ [] →
      (computeProgress phases : ℤ) =
        round ((100 * (completedCount phases : ℚ)) / (phases.length : ℚ)) := by
    intro phases hne
    have ht : 0 < phases.length := List.length_pos.mpr hne
    have htQ : (phases.length : ℚ) ≠ 0 := by
      exact_mod_cast Nat.pos_iff_ne_zero.mp ht
    rw [round_eq]
    have harg :
        100 * (completedCount phases : ℚ) / (phases.length : ℚ) + 1 / 2 =
          ((200 * completedCount phases + phases.length : ℕ) : ℤ) /
            ((2 * phases.length : ℕ) : ℚ) := by
      push_cast
      field_simp
      ring
    rw [harg, Rat.floor_intCast_div_natCast]
    simp only [computeProgress, if_pos ht]
    rw [Int.ofNat_div]
    push_cast
    rfl
  refine ⟨rfl, key, fun phases hne hall => ?_⟩
  have hc : completedCount phases = phases.length := by
    unfold completedCount
    rw [List.filter_eq_self.mpr fun e he => by simp [hall e he]]
  have h100 : (100 * (completedCount phases : ℚ)) / (phases.length : ℚ) = 100 := by
    have htQ : (phases.length : ℚ) ≠ 0 := by
      exact_mod_cast Nat.pos_iff_ne_zero.mp (List.length_pos.mpr hne)
    rw [hc]
    field_simp
  have hthis : (computeProgress phases : ℤ) = 100 := by
    have := key phases hne
    rw [h100] at this
    simpa using this
  exact_mod_cast hthis

/-- Concrete instance of C4: one completed phase out of four gives 25%, and
a single-entry all-completed map gives 100%. -/
theorem computeProgress_correct_witness :
    (computeProgress
        [(ProjectPhase.subtitle_translation, PhaseStatus.completed),
         (ProjectPhase.translation_proofreading, PhaseStatus.not_started),
         (ProjectPhase.audio_production, PhaseStatus.not_started),
         (ProjectPhase.audio_review, PhaseStatus.not_started)] : ℤ) =
      round ((100 * ((1 : ℕ) : ℚ)) / ((4 : ℕ) : ℚ)) ∧
    computeProgress [(ProjectPhase.audio_review, PhaseStatus.completed)] = 100 := by
  constructor
  · exact computeProgress_correct.2.1 _ (by decide)
  · exact computeProgress_correct.2.2 _ (by decide) (by decide)

/-- Claim C5: after set(key, value) at time t, a get(key) at time t' with
t' - t ≤ ttl returns exactly that value; with t' - t > ttl, get returns
nothing and evicts the entry (the resulting map has no entry for the key),
and has(key) returns false. -/
theorem cache_set_get_ttl {T : Type} (ttlMs : Int) (cache : CacheMap T)
    (key : String) (value : T) (t t' : Int) :
    (t' - t ≤ ttlMs →
        (cacheGet ttlMs (cacheSet cache key value t) key t').1 = some value) ∧
    (t' - t > ttlMs →
        (cacheGet ttlMs (cacheSet cache key value t) key t').1 = none ∧
        lookupKey (cacheGet ttlMs (cacheSet cache key value t) key t').2 key =
          none ∧
        (cacheHas ttlMs (cacheSet cache key value t) key t').1 = false) := by
  have hlook :
      lookupKey (cacheSet cache key value t) key =
        some { data := value, timestamp := t } :=
    lookupKey_setKey_self cache key _
  constructor
  · intro hle
    simp [cacheGet, hlook, not_lt.mpr hle]
  · intro hgt
    refine ⟨?_, ?_, ?_⟩
    · simp [cacheGet, hlook, hgt]
    · simp [cacheGet, hlook, hgt, lookupKey_eraseKey_self]
    · simp [cacheHas, hlook, hgt]

/-- Concrete instance of C5: with ttl 5, a value set at time 0 is returned
at time 5 and gone (value, entry and presence) at time 6. -/
theorem cache_set_get_ttl_witness :
    (cacheGet 5 (cacheSet ([] : CacheMap Nat) "k" 42 0) "k" 5).1 = some 42 ∧
    (cacheGet 5 (cacheSet ([] : CacheMap Nat) "k" 42 0) "k" 6).1 = none ∧
    lookupKey (cacheGet 5 (cacheSet ([] : CacheMap Nat) "k" 42 0) "k" 6).2 "k" =
      none ∧
    (cacheHas 5 (cacheSet ([] : CacheMap Nat) "k" 42 0) "k" 6).1 = false :=
  ⟨(cache_set_get_ttl 5 [] "k" 42 0 5).1 (by decide),
   (cache_set_get_ttl 5 [] "k" 42 0 6).2 (by decide)⟩

/-- Claim C7: the error normalizer always yields a kind from the closed
seven-element set; a generic Error maps to unknown carrying the error's own
message, and a non-Error value maps to unknown with the default message. -/
theorem handleError_normalizes (error : ThrownValue) (message : String) :
    (handleError error).code ∈
      [ErrorCode.authentication, ErrorCode.permission_denied,
       ErrorCode.not_found, ErrorCode.validation, ErrorCode.network,
       ErrorCode.server, ErrorCode.unknown] ∧
    (handleError (ThrownValue.jsError message)).code = ErrorCode.unknown ∧
    (handleError (ThrownValue.jsError message)).message = message ∧
    (handleError ThrownValue.otherValue).code = ErrorCode.unknown ∧
    (handleError ThrownValue.otherValue).message =
      "An unexpected error occurred" := by
  refine ⟨?_, rfl, rfl, rfl, rfl⟩
  cases error with
  | firebaseError code msg =>
      simp only [handleError, mapFirebaseErrorCode]
      split
      · simp
      · split
        · simp
        · split <;> simp
  | jsError msg => simp [handleError]
  | otherValue => simp [handleError]

/-- Claim C8, counterexample: the phase string "toString" is outside the
role table, yet the program does not default to admin-only eligibility
there: the JS bracket lookup finds the truthy function inherited from
Object.prototype, so the admin fallback never fires. -/
theorem requiredRolesForPhase_admin_default_counterexample :
    "toString" ∉ ["subtitle_translation", "translation_proofreading",
                  "audio_production", "audio_review"] ∧
    requiredRolesForPhase "toString" ≠
      RequiredRoles.roleList [UserRole.admin] := by
  decide

/-- Claim C8, amended: the phase-to-role table maps the four phases to
translator, reviewer, audio_producer and reviewer respectively; a phase
string outside the table that is not the name of an Object.prototype
property defaults to admin only (strings naming inherited Object.prototype
properties instead yield the truthy inherited function and skip the
fallback). -/
theorem requiredRolesForPhase_table_amended (phase : String)
    (hTable : phase ∉ ["subtitle_translation", "translation_proofreading",
                       "audio_production", "audio_review"])
    (hProto : phase ∉ OBJECT_PROTOTYPE_KEYS) :
    requiredRolesForPhase "subtitle_translation" =
      RequiredRoles.roleList [UserRole.translator] ∧
    requiredRolesForPhase "translation_proofreading" =
      RequiredRoles.roleList [UserRole.reviewer] ∧
    requiredRolesForPhase "audio_production" =
      RequiredRoles.roleList [UserRole.audio_producer] ∧
    requiredRolesForPhase "audio_review" =
      RequiredRoles.roleList [UserRole.reviewer] ∧
    requiredRolesForPhase phase = RequiredRoles.roleList [UserRole.admin] := by
  simp only [List.mem_cons, List.mem_singleton, not_or] at hTable
  obtain ⟨h1, h2, h3, h4, _⟩ := hTable
  refine ⟨rfl, rfl, rfl, rfl, ?_⟩
  simp [requiredRolesForPhase, phaseRoleMap, h1, h2, h3, h4, hProto]

/-- Concrete instance of the amended C8: a phase string that is neither in
the table nor an Object.prototype property name defaults to admin-only
eligibility. -/
theorem requiredRolesForPhase_table_amended_witness :
    requiredRolesForPhase "other_phase" =
      RequiredRoles.roleList [UserRole.admin] :=
  (requiredRolesForPhase_table_amended "other_phase"
    (by decide) (by decide)).2.2.2.2

theorem chunkFrom_join (operations : List BatchOperation) (i : Nat) :
    (chunkFrom operations i).flatten = operations.drop i := by
  rw [chunkFrom]
  by_cases h : i < operations.length
  · rw [if_pos h, List.flatten_cons, chunkFrom_join operations (i + MAX_BATCH_SIZE)]
    have hdrop : operations.drop (i + MAX_BATCH_SIZE) =
        (operations.drop i).drop MAX_BATCH_SIZE := by
      rw [List.drop_drop, Nat.add_comm]
    rw [hdrop, List.take_append_drop]
  · rw [if_neg h, List.flatten_nil,
        List.drop_eq_nil_of_le (Nat.le_of_not_lt h)]
termination_by operations.length - i
decreasing_by simp only [MAX_BATCH_SIZE]; omega

theorem chunkFrom_sizes (operations : List BatchOperation) (i : Nat) :
    ∀ chunk ∈ chunkFrom operations i, chunk.length ≤ MAX_BATCH_SIZE := by
  rw [chunkFrom]
  by_cases h : i < operations.length
  · rw [if_pos h]
    intro chunk hc
    rcases List.mem_cons.mp hc with hc | hc
    · rw [hc]
      exact List.length_take_le _ _
    · exact chunkFrom_sizes operations (i + MAX_BATCH_SIZE) chunk hc
  · rw [if_neg h]
    intro chunk hc
    exact absurd hc (List.not_mem_nil chunk)
termination_by operations.length - i
decreasing_by simp only [MAX_BATCH_SIZE]; omega

/-- Claim C9: executeBatch commits the operation list as consecutive chunks
of at most MAX_BATCH_SIZE = 500 operations whose concatenation is exactly
the input (each operation committed once, in order), and an empty list
produces no batch commits. -/
theorem executeBatch_partitions (operations : List BatchOperation) :
    (∀ chunk ∈ executeBatchCommits operations, chunk.length ≤ MAX_BATCH_SIZE) ∧
    (executeBatchCommits operations).flatten = operations ∧
    executeBatchCommits [] = [] := by
  refine ⟨?_, ?_, rfl⟩
  · intro chunk hc
    unfold executeBatchCommits at hc
    by_cases h : operations.length = 0
    · rw [if_pos h] at hc
      exact absurd hc (List.not_mem_nil chunk)
    · rw [if_neg h] at hc
      exact chunkFrom_sizes operations 0 chunk hc
  · unfold executeBatchCommits
    by_cases h : operations.length = 0
    · rw [if_pos h, List.flatten_nil]
      exact (List.length_eq_zero.mp h).symm
    · rw [if_neg h, chunkFrom_join]
      rfl

/-- Concrete instance of C9: a two-operation list is committed as a single
chunk of size at most 500 that concatenates back to the input. -/
theorem executeBatch_partitions_witness :
    ([⟨BatchOpType.delete, "projects/p1", none⟩,
      ⟨BatchOpType.delete, "projects/p1/videos/v1", none⟩] :
        List BatchOperation).length ≤ MAX_BATCH_SIZE ∧
    (executeBatchCommits
        [⟨BatchOpType.delete, "projects/p1", none⟩,
         ⟨BatchOpType.delete, "projects/p1/videos/v1", none⟩]).flatten =
      [⟨BatchOpType.delete, "projects/p1", none⟩,
       ⟨BatchOpType.delete, "projects/p1/videos/v1", none⟩] :=
  ⟨(executeBatch_partitions
      [⟨BatchOpType.delete, "projects/p1", none⟩,
       ⟨BatchOpType.delete, "projects/p1/videos/v1", none⟩]).1 _
      (by rw [executeBatchCommits, if_neg (by decide), chunkFrom,
              if_pos (by decide)]
          exact List.mem_cons_self _ _),
   (executeBatch_partitions
      [⟨BatchOpType.delete, "projects/p1", none⟩,
       ⟨BatchOpType.delete, "projects/p1/videos/v1", none⟩]).2.1⟩

/-- Claim C10: promoteToAdmin is idempotent on the roles list: when the
stored roles already contain admin, no write is issued, the document is
unchanged and the returned profile's roles equal the stored list with the
admin count unchanged; otherwise the returned roles are the stored list
with admin appended exactly once. -/
theorem promoteToAdmin_idempotent (userDoc : UserDoc) (rs : List UserRole)
    (hrs : userDoc.roles = some rs) :
    (UserRole.admin ∈ rs →
        (promoteToAdmin userDoc).2 = false ∧
        (promoteToAdmin userDoc).1 = userDoc ∧
        profileRoles (promoteToAdmin userDoc).1 = rs ∧
        (profileRoles (promoteToAdmin userDoc).1).count UserRole.admin =
          rs.count UserRole.admin) ∧
    (UserRole.admin ∉ rs →
        (promoteToAdmin userDoc).2 = true ∧
        profileRoles (promoteToAdmin userDoc).1 = rs ++ [UserRole.admin] ∧
        (profileRoles (promoteToAdmin userDoc).1).count UserRole.admin = 1) := by
  constructor
  · intro hmem
    have hres : promoteToAdmin userDoc = (userDoc, false) := by
      simp [promoteToAdmin, hrs, hmem]
    refine ⟨by rw [hres], by rw [hres], ?_, ?_⟩
    · rw [hres]
      simp [profileRoles, hrs]
    · rw [hres]
      simp [profileRoles, hrs]
  · intro hmem
    have hres : (promoteToAdmin userDoc).1.roles =
        some (rs ++ [UserRole.admin]) ∧ (promoteToAdmin userDoc).2 = true := by
      simp [promoteToAdmin, hrs, hmem]
    refine ⟨hres.2, ?_, ?_⟩
    · simp [profileRoles, hres.1]
    · simp [profileRoles, hres.1, List.count_append,
            List.count_eq_zero.mpr hmem]

/-- Concrete instance of C10: a plain user gets admin appended exactly once,
and a user who already has admin is returned unchanged with no write. -/
theorem promoteToAdmin_idempotent_witness :
    (profileRoles (promoteToAdmin ⟨some [UserRole.user], false⟩).1 =
        [UserRole.user, UserRole.admin] ∧
      (promoteToAdmin ⟨some [UserRole.user, UserRole.admin], true⟩).2 = false ∧
      (promoteToAdmin ⟨some [UserRole.user, UserRole.admin], true⟩).1 =
        ⟨some [UserRole.user, UserRole.admin], true⟩) :=
  ⟨((promoteToAdmin_idempotent ⟨some [UserRole.user], false⟩ [UserRole.user]
      rfl).2 (by decide)).2.1,
   ((promoteToAdmin_idempotent ⟨some [UserRole.user, UserRole.admin], true⟩
      [UserRole.user, UserRole.admin] rfl).1 (by decide)).1,
   ((promoteToAdmin_idempotent ⟨some [UserRole.user, UserRole.admin], true⟩
      [UserRole.user, UserRole.admin] rfl).1 (by decide)).2.1⟩

end Transflow
